import Mathlib

/-!
Verification development for the DKB bank-statement PDF-to-CSV converter
(`bank_account_PDF_to_CSV.py`).

The Python source is shallowly embedded: every record field is a plain
string, the regular expressions for dates, amounts and end-of-statement
markers are implemented as executable character-list matchers with the
same greedy/backtracking semantics, the rule store file is modelled as
an `Option` over the stored mapping (`none` = the backing document does
not exist; the JSON codec is an external collaborator and is modelled as
the identity on the mapping), and the blocking console interaction of
`ask_user_for_split` is modelled as an oracle value supplying the triple
that the function returns.
-/

namespace BankPDF

/-- Whitespace as stripped by Python's `str.strip` (ASCII subset). -/
def isSpace (c : Char) : Bool :=
  c == ' ' || c == '\t' || c == '\n' || c == '\r' || c == '\x0b' || c == '\x0c'

/-- Strip leading and trailing whitespace from a character list. -/
def stripL (cs : List Char) : List Char :=
  ((cs.dropWhile isSpace).reverse.dropWhile isSpace).reverse

/-- Python `str.strip()`. -/
def strip (s : String) : String := ⟨stripL s.toList⟩

/-- Python `str.rstrip()`. -/
def rstrip (s : String) : String := ⟨(s.toList.reverse.dropWhile isSpace).reverse⟩

/-- Drop the first `n` characters of a string (Python `s[n:]`). -/
def dropS (n : Nat) (s : String) : String := ⟨s.toList.drop n⟩

/-- Take the first `n` characters of a string (Python `s[:n]`). -/
def takeS (n : Nat) (s : String) : String := ⟨s.toList.take n⟩

/-- Does `cs` start with `pat`? -/
def startsWithB : List Char → List Char → Bool
  | _, [] => true
  | [], _ :: _ => false
  | c :: cs, p :: ps => c == p && startsWithB cs ps

/-- Does `pat` occur as a contiguous substring of the second list?
Embeds Python's `key in text`. -/
def isInfixB (pat : List Char) : List Char → Bool
  | [] => pat.isEmpty
  | c :: cs => startsWithB (c :: cs) pat || isInfixB pat cs

/-- `DATE_RE = ^\d{2}\.\d{2}\.\d{4}`, anchored match at the start of the line. -/
def dateMatch (s : String) : Bool :=
  match s.toList with
  | d1 :: d2 :: p1 :: d3 :: d4 :: p2 :: d5 :: d6 :: d7 :: d8 :: _ =>
      d1.isDigit && d2.isDigit && p1 == '.' && d3.isDigit && d4.isDigit &&
      p2 == '.' && d5.isDigit && d6.isDigit && d7.isDigit && d8.isDigit
  | _ => false

/-- Match `,\d{2}` at the front of the list; returns matched characters and rest. -/
def matchComma2 : List Char → Option (List Char × List Char)
  | ',' :: a :: b :: rest =>
      if a.isDigit && b.isDigit then some ([',', a, b], rest) else none
  | _ => none

/-- Match `(?:\.\d{3})*,\d{2}` greedily with backtracking, as the regex
engine does: consume a `\.\d{3}` group and recurse; if the recursion
fails, fall back to matching `,\d{2}` at the current position. -/
def matchGroupsThenComma : List Char → Option (List Char × List Char)
  | '.' :: a :: b :: c :: rest =>
      if a.isDigit && b.isDigit && c.isDigit then
        match matchGroupsThenComma rest with
        | some (m, r) => some ('.' :: a :: b :: c :: m, r)
        | none => matchComma2 ('.' :: a :: b :: c :: rest)
      else matchComma2 ('.' :: a :: b :: c :: rest)
  | cs => matchComma2 cs

/-- `\d{3}` then the tail of the amount pattern. -/
def try3 : List Char → Option (List Char × List Char)
  | a :: b :: c :: rest =>
      if a.isDigit && b.isDigit && c.isDigit then
        match matchGroupsThenComma rest with
        | some (m, r) => some (a :: b :: c :: m, r)
        | none => none
      else none
  | _ => none

/-- `\d{2}` then the tail of the amount pattern. -/
def try2 : List Char → Option (List Char × List Char)
  | a :: b :: rest =>
      if a.isDigit && b.isDigit then
        match matchGroupsThenComma rest with
        | some (m, r) => some (a :: b :: m, r)
        | none => none
      else none
  | _ => none

/-- `\d{1}` then the tail of the amount pattern. -/
def try1 : List Char → Option (List Char × List Char)
  | a :: rest =>
      if a.isDigit then
        match matchGroupsThenComma rest with
        | some (m, r) => some (a :: m, r)
        | none => none
      else none
  | _ => none

/-- `\d{1,3}(?:\.\d{3})*,\d{2}`: the greedy quantifier tries three
digits first, then backtracks to two, then one. -/
def matchCore (cs : List Char) : Option (List Char × List Char) :=
  match try3 cs with
  | some x => some x
  | none =>
      match try2 cs with
      | some x => some x
      | none => try1 cs

/-- `AMOUNT_RE = -?\d{1,3}(?:\.\d{3})*,\d{2}` attempted at the current
position (`-?` greedily takes the sign first). -/
def matchAmountAt (cs : List Char) : Option (List Char × List Char) :=
  match cs with
  | '-' :: rest =>
      match matchCore rest with
      | some (m, r) => some ('-' :: m, r)
      | none => matchCore cs
  | _ => matchCore cs

/-- `AMOUNT_RE.findall`: scan left to right, take non-overlapping
matches, resume after each match. Fuel is the length of the input,
which suffices because every match consumes at least four characters. -/
def findallAux : Nat → List Char → List (List Char)
  | 0, _ => []
  | _ + 1, [] => []
  | fuel + 1, c :: cs =>
      match matchAmountAt (c :: cs) with
      | some (m, r) => m :: findallAux fuel r
      | none => findallAux fuel cs

/-- All matches of the monetary-amount pattern in a string. -/
def amountFindall (s : String) : List String :=
  (findallAux s.toList.length s.toList).map (fun l => ⟨l⟩)

/-- `Seite \d+ von` matched at the front of a lowercased line. -/
def seiteMatchAt (cs : List Char) : Bool :=
  startsWithB cs ("seite ".toList) &&
    (let rest := cs.drop 6
     let ds := rest.takeWhile Char.isDigit
     !ds.isEmpty && startsWithB (rest.drop ds.length) (" von".toList))

/-- Search for `Seite \d+ von` anywhere in a lowercased line. -/
def seiteSearch : List Char → Bool
  | [] => false
  | c :: cs => seiteMatchAt (c :: cs) || seiteSearch cs

/-- `END_MARKER_RE.search(line)`: any of the fixed marker phrases occurs
in the line, case-insensitively. -/
def endMarker (line : String) : Bool :=
  let l := line.toList.map Char.toLower
  isInfixB ("kontostand am".toList) l ||
  isInfixB ("gesamtumsatzsummen".toList) l ||
  isInfixB ("ihr dispositionskredit".toList) l ||
  isInfixB ("hinweise zum kontoauszug".toList) l ||
  isInfixB ("deutsche kreditbank ag".toList) l ||
  seiteSearch l

/-- `normalize_amount`: drop all periods, then turn commas into periods. -/
def normalize_amount (s : String) : String :=
  if s = "" then ""
  else ⟨(s.toList.filter (fun c => c ≠ '.')).map (fun c => if c == ',' then '.' else c)⟩

/-- The characters stripped by `clean_description`: space, comma, period,
semicolon, colon, hyphen, slash, closing parenthesis, underscore. -/
def leadJunk : List Char := [' ', ',', '.', ';', ':', '-', '/', ')', '_']

/-- `clean_description`: strip leading punctuation/separator characters. -/
def clean_description (s : String) : String :=
  if s = "" then "" else ⟨s.toList.dropWhile (fun c => leadJunk.contains c)⟩

/-- One transaction record, the dictionary built by `parse_lines`.
`Name`/`Beschreibung` are `Option` because the Python dict may lack
those keys until the enricher sets them. -/
structure Booking where
  Datum : String
  Buchungsart : String
  Textblock : String
  Soll : String
  Haben : String
  Name : Option String
  Beschreibung : Option String
deriving DecidableEq, Repr

/-- The record created from a header line (already `rstrip`ped, known to
start with the date pattern): date = first 10 characters; the stripped
remainder is scanned for amounts, the last match decides debit/credit;
the first 20 characters of the remainder become the booking type. -/
def mkHeaderBooking (line : String) : Booking :=
  let rest := strip (dropS 10 line)
  let amounts := amountFindall rest
  let sh : String × String :=
    match amounts.getLast? with
    | some a => if a.toList.contains '-' then (normalize_amount a, "") else ("", normalize_amount a)
    | none => ("", "")
  { Datum := takeS 10 line
    Buchungsart := strip (takeS 20 rest)
    Textblock := ""
    Soll := sh.1
    Haben := sh.2
    Name := none
    Beschreibung := none }

/-- The text-block join step: a continuation line is appended with a
single separating space unless the block is still empty. -/
def tbJoin (acc x : String) : String :=
  if acc ≠ "" then acc ++ " " ++ x else x

/-- The loop body of `parse_lines`: `cur` is the open record, `acc` the
records closed so far. -/
def parseGo : List String → Option Booking → List Booking → List Booking
  | [], cur, acc =>
      match cur with
      | some c => acc ++ [c]
      | none => acc
  | l :: ls, cur, acc =>
      let line := rstrip l
      if dateMatch line then
        parseGo ls (some (mkHeaderBooking line))
          (match cur with
           | some c => acc ++ [c]
           | none => acc)
      else
        match cur with
        | none => parseGo ls none acc
        | some c =>
            if endMarker line then acc ++ [c]
            else
              let clean := strip line
              if clean.length < 2 then parseGo ls (some c) acc
              else parseGo ls (some { c with Textblock := tbJoin c.Textblock clean }) acc

/-- `parse_lines`. -/
def parse_lines (lines : List String) : List Booking := parseGo lines none []

/-- The rule document: an ordered mapping from trigger keys to display
names, in insertion order, as a Python dict / JSON object holds it. -/
abbrev RuleDb := List (String × String)

/-- The backing file of the rule store: `none` when the document does
not exist. The JSON codec is external and modelled as the identity. -/
abbrev FileState := Option RuleDb

/-- `load_reference_db`: the stored mapping, or the empty mapping when
the backing document does not exist. -/
def load_reference_db : FileState → RuleDb
  | none => []
  | some db => db

/-- Python dict assignment `db[key] = value`: update the existing entry
in place, or append a new entry at the end. -/
def upsert (k v : String) : RuleDb → RuleDb
  | [] => [(k, v)]
  | (k', v') :: rest => if k' = k then (k, v) :: rest else (k', v') :: upsert k v rest

/-- `save_reference`: load the current mapping, upsert the pair, and
rewrite the document in full. -/
def save_reference (k v : String) (fs : FileState) : FileState :=
  some (upsert k v (load_reference_db fs))

/-- Dict lookup on the stored mapping. -/
def dbLookup : RuleDb → String → Option String
  | [], _ => none
  | (k', v) :: rest, k => if k' = k then some v else dbLookup rest k

/-- `apply_split_rule`: scan the rules in insertion order; the first key
occurring as a substring of the text yields its display value together
with the text after dropping the first `len(key)` characters, stripped.
`none` embeds the Python return `(None, None)`. -/
def apply_split_rule (text : String) : RuleDb → Option (String × String)
  | [] => none
  | (key, value) :: rest =>
      if isInfixB key.toList text.toList then some (value, strip (dropS key.length text))
      else apply_split_rule text rest

/-- `format_amount`. -/
def format_amount (b : Booking) : String :=
  if b.Soll ≠ "" then "-" ++ b.Soll ++ " EUR"
  else if b.Haben ≠ "" then "+" ++ b.Haben ++ " EUR"
  else "0,00 EUR"

/-- The part of the `enrich_bookings` loop body that runs when no rule
fired (the Python `if label:` guard was falsy). `interact` is the
oracle for the console dialogue `ask_user_for_split`: `none` embeds its
abort return `(None, None, None)`, `some (name, rest, key)` its normal
return triple (where `name` may still be the empty string, which the
`if name:` guard treats as falsy). -/
def enrich_fallthrough (fs : FileState) (interactive : Bool)
    (interact : Option (String × String × String)) (b : Booking) (text : String) :
    Booking × FileState :=
  if interactive then
    match interact with
    | some (name, rest, key) =>
        if name ≠ "" then
          ({ b with Name := some key, Beschreibung := some (clean_description rest) },
           save_reference key name fs)
        else ({ b with Name := some text, Beschreibung := some "" }, fs)
    | none => ({ b with Name := some text, Beschreibung := some "" }, fs)
  else (b, fs)

/-- One iteration of the `enrich_bookings` loop: reload the rule store,
strip the text block, try the rules; a truthy (non-empty) label sets
name and cleaned description, otherwise fall through. -/
def enrich_step (fs : FileState) (interactive : Bool)
    (interact : Option (String × String × String)) (b : Booking) :
    Booking × FileState :=
  let rules := load_reference_db fs
  let text := strip b.Textblock
  match apply_split_rule text rules with
  | some (label, rest) =>
      if label ≠ "" then
        ({ b with Name := some label, Beschreibung := some (clean_description rest) }, fs)
      else enrich_fallthrough fs interactive interact b text
  | none => enrich_fallthrough fs interactive interact b text

/-- `enrich_bookings`, threading the rule-store file through the run;
the oracle list supplies one potential console interaction per record. -/
def enrich_bookings (interactive : Bool) :
    List (Option (String × String × String)) → FileState → List Booking →
    List Booking × FileState
  | _, fs, [] => ([], fs)
  | os, fs, b :: bs =>
      let r := enrich_step fs interactive (os.headD none) b
      let rest := enrich_bookings interactive os.tail r.2 bs
      (r.1 :: rest.1, rest.2)

/-- `get_fuzzy_declarations` with threshold 0.4 and limit 5, over an
abstract similarity score (the `difflib` ratio is an external
collaborator): keep the names scoring at least the threshold, sort the
pairs by descending score with a stable sort, take the first five. -/
def get_fuzzy_declarations (score : String → String → ℚ) (names : List String)
    (text : String) : List (String × ℚ) :=
  let scored := names.filterMap
    (fun n => let s := score text n; if (2 : ℚ) / 5 ≤ s then some (n, s) else none)
  (List.insertionSort (fun a b : String × ℚ => b.2 ≤ a.2) scored).take 5

/-- Index of the first occurrence of `pat` in a character list, if any. -/
def firstOccIdx (pat : List Char) : List Char → Option Nat
  | [] => if pat.isEmpty then some 0 else none
  | c :: cs =>
      if startsWithB (c :: cs) pat then some 0
      else (firstOccIdx pat cs).map (fun i => i + 1)

/-- The description the specification's words predict for a rule match:
the text following the first occurrence of the trigger key, trimmed,
with leading punctuation stripped. Stated from the claim for comparison
with `apply_split_rule`. -/
def descAfterOccurrence (key text : String) : Option String :=
  (firstOccIdx key.toList text.toList).map
    (fun i => clean_description (strip ⟨text.toList.drop (i + key.length)⟩))

/-- The continuation texts a freshly opened record will accumulate from
the following lines: stop at the next record start or at an end marker,
skip lines shorter than two characters after trimming, keep the rest
trimmed. Mirrors the branch structure of `parseGo`. -/
def contTexts : List String → List String
  | [] => []
  | l :: ls =>
      let line := rstrip l
      if dateMatch line then []
      else if endMarker line then []
      else
        let clean := strip line
        if clean.length < 2 then contTexts ls
        else clean :: contTexts ls

/-- A record whose text block matches the AMAZON rule at its start. -/
def amzBooking : Booking :=
  ⟨"15.03.2024", "Lastschrift", "AMAZON EU SARL", "", "", none, none⟩

/-- A record whose text block contains the AMAZON trigger mid-text. -/
def cex1Booking : Booking :=
  ⟨"15.03.2024", "Lastschrift", "XX AMAZON EU SARL", "", "", none, none⟩

/-- A record resolved interactively in the PayPal scenario. -/
def c3Booking : Booking :=
  ⟨"02.02.2024", "Lastschrift", "PAYPAL KEY Zahlung 123", "", "", none, none⟩

/-- The record parsed from the header line with amounts 1.000,00 and -12,00. -/
def c4Booking : Booking :=
  ⟨"01.01.2024", "Lastschrift 1.000,00", "", "-12.00", "", none, none⟩

/-- An open record used to exercise the end-marker step. -/
def c6Booking : Booking :=
  ⟨"03.03.2024", "Gutschrift", "some accumulated text", "", "12.00", none, none⟩

/-- A record with no matching rule, for the non-interactive path. -/
def c7Booking : Booking :=
  ⟨"04.04.2024", "Dauerauftrag", "SOMETEXT XYZ", "-5.00", "", none, none⟩

/-- Another record with no matching rule, for the non-interactive path. -/
def w7Booking : Booking :=
  ⟨"05.04.2024", "Dauerauftrag", "OTHERTEXT ABC", "", "7.00", none, none⟩

/-- A record whose text block contains the key of an empty-valued rule. -/
def c10Booking : Booking :=
  ⟨"06.06.2024", "Lastschrift", "KEY REST", "", "", none, none⟩

/-- `apply_split_rule` returns the display value and length-based
remainder of the first rule, in insertion order, whose key occurs as a
substring of the text. -/
lemma apply_eq_find (text : String) :
    ∀ rules : RuleDb,
      apply_split_rule text rules =
        (rules.find? (fun p => isInfixB p.1.toList text.toList)).map
          (fun p => (p.2, strip (dropS p.1.length text)))
  | [] => rfl
  | (k, v) :: rest => by
      have hstep := apply_eq_find text rest
      by_cases h : isInfixB k.toList text.toList
      · have hp : (fun p : String × String => isInfixB p.1.toList text.toList) (k, v) = true := h
        rw [List.find?_cons_of_pos rest hp]
        simp only [apply_split_rule]
        rw [if_pos h]
        rfl
      · have hp : ¬ (fun p : String × String => isInfixB p.1.toList text.toList) (k, v) = true := by
          simpa using h
        rw [List.find?_cons_of_neg rest hp]
        simp only [apply_split_rule, if_neg h]
        exact hstep

/-- C8: `save_reference` followed by `load_reference_db` yields exactly
the prior mapping with the key/value pair upserted, and loading a
non-existent backing document yields the empty mapping. -/
theorem C8_rule_store_roundtrip (fs : FileState) (k v k' : String) :
    dbLookup (load_reference_db (save_reference k v fs)) k' =
      (if k = k' then some v else dbLookup (load_reference_db fs) k') ∧
    load_reference_db none = [] := by
  refine ⟨?_, rfl⟩
  have main : ∀ db : RuleDb, dbLookup (upsert k v db) k' =
      if k = k' then some v else dbLookup db k' := by
    intro db
    induction db with
    | nil => simp [upsert, dbLookup]
    | cons p rest ih =>
        obtain ⟨k0, v0⟩ := p
        by_cases h0 : k0 = k
        · subst h0
          by_cases h1 : k0 = k'
          · simp [upsert, dbLookup, h1]
          · simp [upsert, dbLookup, h1]
        · by_cases h1 : k0 = k'
          · subst h1
            have h2 : ¬ k = k0 := fun h => h0 h.symm
            simp [upsert, dbLookup, h0, h2]
          · simp [upsert, dbLookup, h0, h1, ih]
  simpa [save_reference] using main (load_reference_db fs)

/-- C6 (amended): a line that does not start a new record and matches an
end-of-statement marker, seen while a record is open, closes that record
unchanged and discards every remaining line. -/
theorem C6_marker_amended (l : String) (ls : List String) (c : Booking) (acc : List Booking)
    (hdate : dateMatch (rstrip l) = false) (hmark : endMarker (rstrip l) = true) :
    parseGo (l :: ls) (some c) acc = acc ++ [c] := by
  simp [parseGo, hdate, hmark]

/-- C6 (witness): a concrete marker line closes the open record as is
and the trailing line is discarded. -/
theorem C6_witness :
    parseGo ["Kontostand am 30.06.2024", "leftover line"] (some c6Booking) [] =
      [] ++ [c6Booking] :=
  C6_marker_amended "Kontostand am 30.06.2024" ["leftover line"] c6Booking []
    (by decide) (by decide)

/-- C6 (counterexample): a line that matches an end marker but begins
with a date token is seen while a record is open, yet it starts a second
record instead of halting, and the following line still contributes to
that record's text block. -/
theorem C6_counterexample :
    endMarker (rstrip "01.01.2024 Kontostand am Ende") = true ∧
    parse_lines ["01.01.2024 Umsatz -10,00", "01.01.2024 Kontostand am Ende", "tailtext"] =
      [{ Datum := "01.01.2024", Buchungsart := "Umsatz -10,00", Textblock := "",
         Soll := "-10.00", Haben := "", Name := none, Beschreibung := none },
       { Datum := "01.01.2024", Buchungsart := "Kontostand am Ende", Textblock := "tailtext",
         Soll := "", Haben := "", Name := none, Beschreibung := none }] := by
  constructor
  · decide
  · decide

/-- C7 (amended): with interactive mode disabled and no rule matching,
the enricher leaves the record and the rule store untouched; in
particular the name and description keys stay unset. -/
theorem C7_noninteractive_amended (fs : FileState)
    (o : Option (String × String × String)) (b : Booking)
    (h : apply_split_rule (strip b.Textblock) (load_reference_db fs) = none) :
    enrich_step fs false o b = (b, fs) := by
  simp [enrich_step, enrich_fallthrough, h]

/-- C7 (witness): a concrete unmatched record passes through the
non-interactive enricher unchanged. -/
theorem C7_witness : enrich_step (some []) false none w7Booking = (w7Booking, some []) :=
  C7_noninteractive_amended (some []) none w7Booking (by decide)

/-- C7 (counterexample): the claim predicts the name becomes the full
text block, but the non-interactive enricher leaves the record unchanged
with the name unset. -/
theorem C7_counterexample :
    enrich_step (some []) false none c7Booking = (c7Booking, some []) ∧
    c7Booking.Textblock = "SOMETEXT XYZ" ∧
    c7Booking.Name = none ∧
    (none : Option String) ≠ some "SOMETEXT XYZ" := by
  refine ⟨by decide, rfl, rfl, by decide⟩

/-- C3 (code bug): in the interactive path the operator selects the
display name PayPal for the split key PAYPAL KEY; the rule key → PayPal
is persisted and the description is the cleaned residual, but the
record's name is set to the trigger key, not to the selected name. -/
theorem C3_code_divergence :
    enrich_step (some []) true (some ("PayPal", "Zahlung 123", "PAYPAL KEY")) c3Booking =
      ({ c3Booking with Name := some "PAYPAL KEY", Beschreibung := some "Zahlung 123" },
       some [("PAYPAL KEY", "PayPal")]) ∧
    ("PAYPAL KEY" : String) ≠ "PayPal" := by
  refine ⟨by decide, by decide⟩

/-- C4 (code bug): the last amount match is taken and classified as a
debit, and thousands separators are normalized, but the debit field
stores the normalized string with its minus sign, so `format_amount`
renders a double minus instead of the claimed separate magnitude. -/
theorem C4_code_divergence :
    normalize_amount "1.234,56" = "1234.56" ∧
    parse_lines ["01.01.2024 Lastschrift 1.000,00 -12,00"] = [c4Booking] ∧
    c4Booking.Soll = "-12.00" ∧
    ("-12.00" : String) ≠ "12.00" ∧
    format_amount c4Booking = "--12.00 EUR" := by
  refine ⟨by decide, by decide, rfl, by decide, by decide⟩

/-- C10: when the first rule whose key occurs in the text maps to the
empty display name, rule application returns the empty-string label and
the enricher takes exactly the no-match fall-through path, so such a
rule never auto-labels a record. -/
theorem C10_empty_label (fs : FileState) (i : Bool)
    (o : Option (String × String × String)) (b : Booking) (k : String)
    (hfind : (load_reference_db fs).find?
        (fun p => isInfixB p.1.toList (strip b.Textblock).toList) = some (k, "")) :
    apply_split_rule (strip b.Textblock) (load_reference_db fs) =
      some ("", strip (dropS k.length (strip b.Textblock))) ∧
    enrich_step fs i o b = enrich_fallthrough fs i o b (strip b.Textblock) := by
  have h := apply_eq_find (strip b.Textblock) (load_reference_db fs)
  rw [hfind] at h
  refine ⟨h, ?_⟩
  simp [enrich_step, h]

/-- C10 (witness): a concrete empty-valued rule fires and the enricher
falls through as if no rule had matched. -/
theorem C10_witness :
    apply_split_rule (strip c10Booking.Textblock) (load_reference_db (some [("KEY", "")])) =
      some ("", strip (dropS "KEY".length (strip c10Booking.Textblock))) ∧
    enrich_step (some [("KEY", "")]) true none c10Booking =
      enrich_fallthrough (some [("KEY", "")]) true none c10Booking (strip c10Booking.Textblock) :=
  C10_empty_label (some [("KEY", "")]) true none c10Booking "KEY" (by decide)

/-- C1 (counterexample): with rule AMAZON → Amazon and text in which the
trigger occurs mid-string, the code slices off the first six characters
of the whole text, while the claim predicts the text following the
occurrence of the trigger. -/
theorem C1_counterexample :
    (enrich_step (some [("AMAZON", "Amazon")]) false none cex1Booking).1.Beschreibung =
      some "ZON EU SARL" ∧
    descAfterOccurrence "AMAZON" (strip cex1Booking.Textblock) = some "EU SARL" ∧
    (some "ZON EU SARL" : Option String) ≠ some "EU SARL" := by
  refine ⟨by decide, by decide, by decide⟩

/-- C1 (amended): the trigger keys are scanned in mapping insertion
order and the first key occurring as a substring of the text decides the
match; the name becomes the mapped display value, and the description is
the text with its first `len(key)` characters removed, trimmed, with
leading punctuation stripped (which is the text after the occurrence
precisely when the key occurs at the start of the text). -/
theorem C1_rule_application_amended (fs : FileState) (i : Bool)
    (o : Option (String × String × String)) (b : Booking) (k v : String)
    (hfind : (load_reference_db fs).find?
        (fun p => isInfixB p.1.toList (strip b.Textblock).toList) = some (k, v))
    (hv : v ≠ "") :
    (enrich_step fs i o b).1.Name = some v ∧
    (enrich_step fs i o b).1.Beschreibung =
      some (clean_description (strip (dropS k.length (strip b.Textblock)))) := by
  have h := apply_eq_find (strip b.Textblock) (load_reference_db fs)
  rw [hfind] at h
  constructor
  · simp [enrich_step, h, hv]
  · simp [enrich_step, h, hv]

/-- C1 (witness): the specification's own example — rule AMAZON →
Amazon on the text AMAZON EU SARL yields name Amazon and description
EU SARL. -/
theorem C1_witness :
    (enrich_step (some [("AMAZON", "Amazon")]) false none amzBooking).1.Name = some "Amazon" ∧
    (enrich_step (some [("AMAZON", "Amazon")]) false none amzBooking).1.Beschreibung =
      some "EU SARL" := by
  have h := C1_rule_application_amended (some [("AMAZON", "Amazon")]) false none amzBooking
    "AMAZON" "Amazon" (by decide) (by decide)
  exact ⟨h.1, h.2.trans (by decide)⟩

/-- C2 (counterexample): the header line's remainder is not part of the
text block — the emitted record's text block holds only the continuation
line, not the joined header remainder and continuation the claim
predicts. -/
theorem C2_counterexample :
    parse_lines ["01.01.2024 HEADERREST -10,00", "contline"] =
      [{ Datum := "01.01.2024", Buchungsart := "HEADERREST -10,00", Textblock := "contline",
         Soll := "-10.00", Haben := "", Name := none, Beschreibung := none }] ∧
    ("contline" : String) ≠ "HEADERREST -10,00 contline" := by
  refine ⟨by decide, by decide⟩

/-- C2 (amended): an open record accumulates exactly the accepted
continuation lines that follow, trimmed and joined with single spaces,
onto its existing text block; the header line's remainder never enters
the text block (a freshly parsed header record starts with an empty text
block and contributes only the booking type). -/
theorem C2_textblock_amended (ls : List String) (c : Booking) (acc : List Booking) :
    ∃ tail, parseGo ls (some c) acc =
      acc ++ ({ c with Textblock := (contTexts ls).foldl tbJoin c.Textblock } :: tail) := by
  induction ls generalizing c acc with
  | nil => exact ⟨[], by simp [parseGo, contTexts]⟩
  | cons l ls ih =>
      by_cases hd : dateMatch (rstrip l)
      · obtain ⟨t, ht⟩ := ih (mkHeaderBooking (rstrip l)) (acc ++ [c])
        refine ⟨{ mkHeaderBooking (rstrip l) with
            Textblock := (contTexts ls).foldl tbJoin (mkHeaderBooking (rstrip l)).Textblock }
              :: t, ?_⟩
        have hg : parseGo (l :: ls) (some c) acc =
            parseGo ls (some (mkHeaderBooking (rstrip l))) (acc ++ [c]) := by
          simp [parseGo, hd]
        rw [hg, ht]
        simp [contTexts, hd]
      · by_cases hm : endMarker (rstrip l)
        · refine ⟨[], ?_⟩
          simp [parseGo, hd, hm, contTexts]
        · by_cases hlen : (strip (rstrip l)).length < 2
          · obtain ⟨t, ht⟩ := ih c acc
            refine ⟨t, ?_⟩
            simp only [parseGo, hd, if_false, hm, hlen, if_true, contTexts, Bool.false_eq_true]
            simpa [hd, hm, hlen] using ht
          · obtain ⟨t, ht⟩ := ih { c with Textblock := tbJoin c.Textblock (strip (rstrip l)) } acc
            refine ⟨t, ?_⟩
            simp only [parseGo, hd, hm, hlen, contTexts, Bool.false_eq_true, if_false]
            simpa [hd, hm, hlen] using ht

/-- A freshly parsed header record populates at most one amount field. -/
lemma mkHeader_amounts (line : String) :
    (mkHeaderBooking line).Soll = "" ∨ (mkHeaderBooking line).Haben = "" := by
  unfold mkHeaderBooking
  rcases h : (amountFindall (strip (dropS 10 line))).getLast? with _ | a
  · simp [h]
  · by_cases hc : '-' ∈ a.data
    · simp [h, hc]
    · simp [h, hc]

/-- The parser invariant: every closed record and the open record have
at most one non-empty amount field, and this is preserved to the end. -/
lemma parseGo_amounts : ∀ (ls : List String) (cur : Option Booking) (acc : List Booking),
    (∀ b ∈ acc, b.Soll = "" ∨ b.Haben = "") →
    (∀ c, cur = some c → c.Soll = "" ∨ c.Haben = "") →
    ∀ b ∈ parseGo ls cur acc, b.Soll = "" ∨ b.Haben = ""
  | [], cur, acc, hacc, hcur => by
      cases cur with
      | none => simpa [parseGo] using hacc
      | some c =>
          intro b hb
          simp only [parseGo] at hb
          rcases List.mem_append.1 hb with h | h
          · exact hacc b h
          · rcases List.mem_singleton.1 h with rfl
            exact hcur b rfl
  | l :: ls, cur, acc, hacc, hcur => by
      intro b hb
      by_cases hd : dateMatch (rstrip l)
      · cases cur with
        | none =>
            refine parseGo_amounts ls (some (mkHeaderBooking (rstrip l))) acc hacc ?_ b ?_
            · intro c' hc'
              cases hc'
              exact mkHeader_amounts (rstrip l)
            · simpa [parseGo, hd] using hb
        | some c =>
            refine parseGo_amounts ls (some (mkHeaderBooking (rstrip l))) (acc ++ [c]) ?_ ?_ b ?_
            · intro b' hb'
              rcases List.mem_append.1 hb' with h | h
              · exact hacc b' h
              · rcases List.mem_singleton.1 h with rfl
                exact hcur b' rfl
            · intro c' hc'
              cases hc'
              exact mkHeader_amounts (rstrip l)
            · simpa [parseGo, hd] using hb
      · cases cur with
        | none =>
            refine parseGo_amounts ls none acc hacc (by intro c hc; cases hc) b ?_
            simpa [parseGo, hd] using hb
        | some c =>
            by_cases hm : endMarker (rstrip l)
            · simp only [parseGo, hd, hm] at hb
              simp only [Bool.false_eq_true, if_false, if_true] at hb
              rcases List.mem_append.1 hb with h | h
              · exact hacc b h
              · rcases List.mem_singleton.1 h with rfl
                exact hcur b rfl
            · by_cases hlen : (strip (rstrip l)).length < 2
              · refine parseGo_amounts ls (some c) acc hacc hcur b ?_
                simpa [parseGo, hd, hm, hlen] using hb
              · refine parseGo_amounts ls
                  (some { c with Textblock := tbJoin c.Textblock (strip (rstrip l)) })
                  acc hacc ?_ b ?_
                · intro c' hc'
                  cases hc'
                  exact hcur c rfl
                · simpa [parseGo, hd, hm, hlen] using hb

/-- The enricher only writes the name and description fields; the amount
fields pass through unchanged. -/
lemma enrich_step_amounts (fs : FileState) (i : Bool)
    (o : Option (String × String × String)) (b : Booking) :
    (enrich_step fs i o b).1.Soll = b.Soll ∧ (enrich_step fs i o b).1.Haben = b.Haben := by
  simp only [enrich_step, enrich_fallthrough]
  rcases apply_split_rule (strip b.Textblock) (load_reference_db fs) with _ | ⟨label, rest⟩ <;>
    cases i <;>
    rcases o with _ | ⟨name, rest', key⟩ <;>
    constructor <;>
    (repeat' split) <;>
    rfl

/-- The amount-exclusivity invariant survives the whole enrichment run. -/
lemma enrich_bookings_amounts (i : Bool) :
    ∀ (os : List (Option (String × String × String))) (fs : FileState) (bs : List Booking),
      (∀ b ∈ bs, b.Soll = "" ∨ b.Haben = "") →
      ∀ b ∈ (enrich_bookings i os fs bs).1, b.Soll = "" ∨ b.Haben = ""
  | _, _, [], _ => by simp [enrich_bookings]
  | os, fs, b :: bs, h => by
      intro b' hb'
      simp only [enrich_bookings, List.mem_cons] at hb'
      rcases hb' with rfl | hb'
      · have hs := enrich_step_amounts fs i (os.headD none) b
        have hP := h b (List.mem_cons_self b bs)
        rcases hP with hP | hP
        · exact Or.inl (hs.1.trans hP)
        · exact Or.inr (hs.2.trans hP)
      · exact enrich_bookings_amounts i os.tail _ bs
          (fun x hx => h x (List.mem_cons_of_mem b hx)) b' hb'

/-- C5: every record coming out of the parser and passed through the
enricher has at most one non-empty amount field; the enricher never
touches the amount fields. -/
theorem C5_amount_exclusive (lines : List String) (i : Bool)
    (os : List (Option (String × String × String))) (fs : FileState) (b : Booking)
    (hb : b ∈ (enrich_bookings i os fs (parse_lines lines)).1) :
    b.Soll = "" ∨ b.Haben = "" :=
  enrich_bookings_amounts i os fs (parse_lines lines)
    (parseGo_amounts lines none [] (by simp) (by simp)) b hb

/-- C5 (witness): a concrete parsed and enriched debit record has an
empty credit field. -/
theorem C5_witness :
    c4Booking ∈ (enrich_bookings false [] (some []) (parse_lines
      ["01.01.2024 Lastschrift 1.000,00 -12,00"])).1 ∧
    (c4Booking.Soll = "" ∨ c4Booking.Haben = "") :=
  ⟨by decide, C5_amount_exclusive ["01.01.2024 Lastschrift 1.000,00 -12,00"] false [] (some [])
    c4Booking (by decide)⟩

/-- C9: for any similarity score, the fuzzy shortlist holds only names
scoring at least 0.4, is sorted by descending score, and has at most
five entries. -/
theorem C9_fuzzy_shortlist (score : String → String → ℚ) (names : List String)
    (text : String) :
    (∀ p ∈ get_fuzzy_declarations score names text,
        (2 : ℚ) / 5 ≤ p.2 ∧ p.2 = score text p.1) ∧
    List.Pairwise (fun a b : String × ℚ => b.2 ≤ a.2)
      (get_fuzzy_declarations score names text) ∧
    (get_fuzzy_declarations score names text).length ≤ 5 := by
  haveI htot : IsTotal (String × ℚ) (fun a b : String × ℚ => b.2 ≤ a.2) :=
    ⟨fun a b => le_total b.2 a.2⟩
  haveI htr : IsTrans (String × ℚ) (fun a b : String × ℚ => b.2 ≤ a.2) :=
    ⟨fun _ _ _ h1 h2 => le_trans h2 h1⟩
  refine ⟨?_, ?_, ?_⟩
  · intro p hp
    have hp1 : p ∈ List.insertionSort (fun a b : String × ℚ => b.2 ≤ a.2)
        (names.filterMap (fun n =>
          let s := score text n
          if (2 : ℚ) / 5 ≤ s then some (n, s) else none)) :=
      (List.take_sublist 5 _).mem hp
    have hp2 := (List.mem_insertionSort (fun a b : String × ℚ => b.2 ≤ a.2)).1 hp1
    obtain ⟨n, _, hfn⟩ := List.mem_filterMap.1 hp2
    by_cases hs : (2 : ℚ) / 5 ≤ score text n
    · simp only [hs, if_pos] at hfn
      cases hfn
      exact ⟨hs, rfl⟩
    · simp [hs] at hfn
  · exact List.Pairwise.sublist (List.take_sublist 5 _)
      (List.sorted_insertionSort (fun a b : String × ℚ => b.2 ≤ a.2) _)
  · exact List.length_take_le 5 _

/-- C9 (witness): a concrete shortlist has at most five entries. -/
theorem C9_witness :
    (get_fuzzy_declarations (fun a b => if a = b then 1 else 0)
      ["Amazon", "PayPal"] "Amazon").length ≤ 5 :=
  (C9_fuzzy_shortlist (fun a b => if a = b then 1 else 0) ["Amazon", "PayPal"] "Amazon").2.2

end BankPDF
